import Mathlib

/-!
Shallow embedding of the GuessSong server core (server/game_manager.py and
server/main.py) together with proofs about its specification claims.

Strings are modelled as lists of characters.  Python string lowering, the
whitespace notion of strip and split, and the two regular expressions of
normalize_string are embedded as executable character-level functions,
faithful to the CPython regex semantics for those concrete patterns.
Python floats are modelled by rational numbers and the built-in round by
round-half-to-even.
-/

namespace GuessSong

/-- ASCII whitespace, modelling the whitespace notion used by Python strip,
split and the regex class backslash-s on the strings at hand. -/
def isWS (c : Char) : Bool :=
  c.toNat == 32 || c.toNat == 9 || c.toNat == 10 || c.toNat == 13 ||
    c.toNat == 11 || c.toNat == 12

/-- ASCII lowering, modelling Python str.lower on the characters at hand. -/
def asciiLower (c : Char) : Char :=
  if 65 ≤ c.toNat && c.toNat ≤ 90 then Char.ofNat (c.toNat + 32) else c

/-- Test for an opening bracket, the regex class of ( and [. -/
def isOpenB (c : Char) : Bool := c.toNat == 40 || c.toNat == 91

/-- Test for a closing bracket, the regex class of ) and ]. -/
def isCloseB (c : Char) : Bool := c.toNat == 41 || c.toNat == 93

/-- Test for any of the four bracket characters removed on line 47 of
game_manager.py. -/
def isBracketB (c : Char) : Bool :=
  c.toNat == 40 || c.toNat == 41 || c.toNat == 91 || c.toNat == 93

/-- Keyword alternation of the annotation regex on line 45 of
game_manager.py. -/
def keywords : List (List Char) :=
  ["feat", "ft", "with", "remix", "remaster", "live", "edit", "version",
    "deluxe"].map String.toList

/-- Case-insensitive test that a given keyword occurs at the head of the
string and is immediately followed by a closing bracket, as the regex
alternation group directly followed by the closing-bracket class demands. -/
def kwThenClose : List Char → List Char → Bool
  | [], [] => false
  | [], c :: _ => isCloseB c
  | _ :: _, [] => false
  | k :: ks, c :: cs => (asciiLower c == k) && kwThenClose ks cs

/-- Test that some keyword immediately followed by a closing bracket starts
at the head of the string. -/
def kwCloseAt (s : List Char) : Bool := keywords.any (fun k => kwThenClose k s)

/-- Test that some keyword immediately followed by a closing bracket occurs
anywhere in the string. -/
def hasKwClose : List Char → Bool
  | [] => false
  | c :: cs => kwCloseAt (c :: cs) || hasKwClose cs

/-- Attempted match of the annotation regex of line 45 of game_manager.py at
the start of the given suffix.  The pattern is whitespace-star, an opening
bracket, dot-star, a keyword, a closing bracket, dot-star; dot does not
cross a newline, so a successful match consumes the optional whitespace
run, the opening bracket and the rest of that line, and the remainder
starts at the following newline.  Returns the remainder on success. -/
def annMatchEnd (s : List Char) : Option (List Char) :=
  match s.dropWhile isWS with
  | [] => none
  | c :: cs =>
    if isOpenB c && hasKwClose (cs.takeWhile (fun x => !(x.toNat == 10))) then
      some (cs.dropWhile (fun x => !(x.toNat == 10)))
    else none

/-- Fuel-indexed scan of re.sub with the annotation regex and empty
replacement: at each position try to match, drop the match and continue
after it, otherwise keep one character and advance.  The fuel only serves
termination; the initial fuel equals the string length, which the scan
never exhausts since every step consumes at least one character. -/
def annSubF : Nat → List Char → List Char
  | 0, s => s
  | _ + 1, [] => []
  | f + 1, c :: cs =>
    match annMatchEnd (c :: cs) with
    | some rest => annSubF f rest
    | none => c :: annSubF f cs

/-- Embedding of re.sub of the annotation regex with empty replacement,
line 45 of game_manager.py. -/
def annSub (s : List Char) : List Char := annSubF s.length s

/-- Embedding of Python str.strip: drop whitespace from both ends. -/
def stripWS (s : List Char) : List Char :=
  ((s.dropWhile isWS).reverse.dropWhile isWS).reverse

/-- Test whether the string starts with space, hyphen, space. -/
def dashAt : List Char → Bool
  | c1 :: c2 :: c3 :: _ => c1.toNat == 32 && c2.toNat == 45 && c3.toNat == 32
  | _ => false

/-- Embedding of text.split(" - ")[0]: the prefix before the first
occurrence of space-hyphen-space, or the whole string when absent. -/
def splitDashFirst : List Char → List Char
  | [] => []
  | c :: cs => if dashAt (c :: cs) then [] else c :: splitDashFirst cs

/-- Characters kept by re.sub of the raw-string class not a-z, 0-9,
backslash backslash, s, apostrophe (line 48 of game_manager.py): in a raw
string the double backslash denotes an escaped literal backslash, so the
kept characters are lowercase letters, digits, the backslash and the
apostrophe; whitespace is removed. -/
def isKeep (c : Char) : Bool :=
  (97 ≤ c.toNat && c.toNat ≤ 122) || (48 ≤ c.toNat && c.toNat ≤ 57) ||
    c.toNat == 92 || c.toNat == 39

/-- Accumulator pass of Python str.split with no separator: split on
whitespace runs, dropping empty pieces. -/
def pyWordsAux : List Char → List Char → List (List Char)
  | [], acc => if acc.isEmpty then [] else [acc.reverse]
  | c :: cs, acc =>
    if isWS c then
      if acc.isEmpty then pyWordsAux cs [] else acc.reverse :: pyWordsAux cs []
    else pyWordsAux cs (c :: acc)

/-- Embedding of Python str.split with no separator. -/
def pyWords (s : List Char) : List (List Char) := pyWordsAux s []

/-- Embedding of joining with a single space. -/
def joinSpace : List (List Char) → List Char
  | [] => []
  | [w] => w
  | w :: ws => w ++ Char.ofNat 32 :: joinSpace ws

/-- Embedding of normalize_string, lines 43 to 50 of game_manager.py:
lower; remove annotation-regex matches and strip; keep the prefix before
the first space-hyphen-space; remove bracket characters and strip; remove
every character outside lowercase letters, digits, backslash, apostrophe;
rejoin the whitespace-split pieces with single spaces; strip. -/
def normalize_string (s : List Char) : List Char :=
  stripWS (joinSpace (pyWordsAux
    (((stripWS ((splitDashFirst (stripWS (annSub (s.map asciiLower)))).filter
      (fun c => !(isBracketB c)))).filter isKeep)) []))

/-- Round half to even, modelling the Python built-in round applied to the
exact rational value of the computed score. -/
def pyRound (q : ℚ) : ℤ :=
  if q - (⌊q⌋ : ℚ) < 1/2 then ⌊q⌋
  else if (1:ℚ)/2 < q - (⌊q⌋ : ℚ) then ⌊q⌋ + 1
  else if ⌊q⌋ % 2 = 0 then ⌊q⌋ else ⌊q⌋ + 1

/-- Player state, modelling the Player class of game_manager.py lines 52
to 63: the websocket is modelled by the connected flag and an absent
guess time by zero. -/
structure PlayerM where
  username : String
  score : ℤ
  wins : ℕ
  has_answered : Bool
  gave_up : Bool
  guess_time : ℚ
  connected : Bool
  deriving DecidableEq

/-- Embedding of Player.reset_for_new_round, lines 65 to 68. -/
def resetRound (p : PlayerM) : PlayerM :=
  { p with has_answered := false, gave_up := false, guess_time := 0 }

/-- Embedding of Player.reset_for_new_game, lines 70 to 72. -/
def resetGame (p : PlayerM) : PlayerM := { resetRound p with score := 0 }

/-- Insertion into a list sorted by ascending guess time, placed after all
entries of smaller or equal time so the overall sort is stable. -/
def insByTime (x : PlayerM) : List PlayerM → List PlayerM
  | [] => [x]
  | y :: ys =>
    if y.guess_time ≤ x.guess_time then y :: insByTime x ys else x :: y :: ys

/-- Stable sort by ascending guess time, modelling Python sorted with the
guess-time key on line 376 of game_manager.py. -/
def sortByTime (l : List PlayerM) : List PlayerM :=
  l.foldl (fun acc x => insByTime x acc) []

/-- Base points of a correct answer, lines 387 to 391 of game_manager.py:
fifty points scaled by the time penalty, floored at ten. -/
def pontosCode (dur t : ℚ) : ℚ :=
  if 50 * (1 - (t / dur) * (1/2)) < 10 then 10 else 50 * (1 - (t / dur) * (1/2))

/-- First-place bonus, lines 394 to 400: rounded lead over the runner-up,
clamped below at zero. -/
def bonusPrimeiroCode (t tSecond : ℚ) : ℤ :=
  if pyRound (10 * (1 - (tSecond - t) / 5)) < 0 then 0
  else pyRound (10 * (1 - (tSecond - t) / 5))

/-- Solo-answer bonus, lines 402 to 405. -/
def bonusUnicoCode (totalPlayers : ℕ) : ℤ := 5 * ((totalPlayers : ℤ) - 1)

/-- Final award of the answerer at zero-based sorted position i, lines 382
to 407 of game_manager.py. -/
def awardCode (dur : ℚ) (answered : List PlayerM) (totalPlayers : ℕ)
    (i : ℕ) (p : PlayerM) : ℤ :=
  pyRound (pontosCode dur p.guess_time
    + ((if i = 0 ∧ 1 < answered.length then
        bonusPrimeiroCode p.guess_time
          (((answered[1]?).map PlayerM.guess_time).getD 0)
      else 0) : ℤ)
    + ((if answered.length = 1 then bonusUnicoCode totalPlayers else 0) : ℤ))

/-- Association lookup of an award by username, defaulting to zero. -/
def lookupZ (l : List (String × ℤ)) (u : String) : ℤ :=
  match l.find? (fun pr => pr.1 == u) with
  | some pr => pr.2
  | none => 0

/-- Awards of a round: the sorted answerers paired with their final
awards, in rank order. -/
def roundAwards (dur : ℚ) (answered : List PlayerM) (totalPlayers : ℕ) :
    List (String × ℤ) :=
  answered.enum.map
    (fun ip => (ip.2.username, awardCode dur answered totalPlayers ip.1 ip.2))

/-- Embedding of the scoring pass of end_round, lines 376 to 408: the
players who answered, ranked by ascending guess time, each gain their
final award once; players without has_answered, in particular those who
gave up or ran out of time, are unchanged. -/
def scoreRound (dur : ℚ) (players : List PlayerM) : List PlayerM :=
  players.map (fun p =>
    if p.has_answered then
      { p with score := p.score +
          lookupZ (roundAwards dur
            (sortByTime (players.filter (fun q => q.has_answered)))
            players.length) p.username }
    else p)

/-- Base points exactly as claim C1 words them. -/
def specPoints (dur e : ℚ) : ℚ := max 10 (50 * (1 - (e / dur) * (1/2)))

/-- First-place bonus exactly as claim C1 words it. -/
def specFirstBonus (e second : ℚ) : ℤ :=
  max 0 (pyRound (10 * (1 - (second - e) / 5)))

/-- Solo bonus exactly as claim C1 words it. -/
def specSoloBonus (totalPlayers : ℕ) : ℤ := 5 * ((totalPlayers : ℤ) - 1)

/-- Award formula as claim C1 words it, for the answerer of one-based rank
r among numAnswered answerers. -/
def specAward (dur : ℚ) (r numAnswered : ℕ) (e second : ℚ)
    (totalPlayers : ℕ) : ℤ :=
  pyRound (specPoints dur e
    + ((if r = 1 ∧ 2 ≤ numAnswered then specFirstBonus e second else 0) : ℤ)
    + ((if numAnswered = 1 then specSoloBonus totalPlayers else 0) : ℤ))

/-- Room lifecycle states of game_manager.py. -/
inductive GState where
  | LOBBY
  | PLAYING
  | ROUND_OVER
  | GAME_OVER
  deriving DecidableEq

/-- Track entry of the prepared game list, lines 253 to 256: tid models
the Spotify track id and hasMeta the presence of both a name and an
artist list, without which line 254 skips the track. -/
structure Track where
  tid : String
  title : List Char
  hasMeta : Bool
  deriving DecidableEq

/-- Abstract room state.  It models a GameRoom of game_manager.py; the
websocket of a player is modelled by its connected flag, download state is
abstracted as always successful, and the fields prepared and
lastPrepUnplayed are ghost fields recording that a preparation has
happened and how many unplayed tracks it saw.  round_tasks counts the
live game_loop tasks.  hostBench models the room.host Python object while
the host is not a member of the players dict, since that object keeps its
score and wins across a disconnect. -/
structure RoomState where
  host_name : String
  hostBench : PlayerM
  players : List PlayerM
  game_state : GState
  current_round : ℕ
  total_rounds : ℕ
  game_tracks : List Track
  played_track_ids : List String
  playlist_url : String
  round_duration : ℚ
  round_start_time : ℚ
  prep_complete : Bool
  round_tasks : ℕ
  prepared : Bool
  lastPrepUnplayed : ℕ
  deriving DecidableEq

/-- Usernames present in the players dict. -/
def usernames (l : List PlayerM) : List String := l.map PlayerM.username

/-- Lookup of a player by username. -/
def findP (l : List PlayerM) (u : String) : Option PlayerM :=
  l.find? (fun p => p.username == u)

/-- In-place update of the player object stored under a username. -/
def updateP (l : List PlayerM) (u : String) (f : PlayerM → PlayerM) :
    List PlayerM :=
  l.map (fun p => if p.username == u then f p else p)

/-- Removal of a username from the players dict. -/
def removeP (l : List PlayerM) (u : String) : List PlayerM :=
  l.filter (fun p => !(p.username == u))

/-- Room state after GameRoom.__init__, lines 75 to 95, reached through
GameManager.create_room with a host Player built on main.py line 39 with
no websocket and zero score. -/
def initRoom (host url : String) (dur : ℚ) (totalRounds : ℕ) : RoomState :=
  { host_name := host
    hostBench := { username := host, score := 0, wins := 0,
                   has_answered := false, gave_up := false, guess_time := 0,
                   connected := false }
    players := []
    game_state := .LOBBY
    current_round := 0
    total_rounds := totalRounds
    game_tracks := []
    played_track_ids := []
    playlist_url := url
    round_duration := dur
    round_start_time := 0
    prep_complete := false
    round_tasks := 0
    prepared := false
    lastPrepUnplayed := 0 }

/-- Outcome of a websocket connection attempt. -/
inductive ConnOutcome where
  | accepted
  | rejected
  deriving DecidableEq

/-- Embedding of the connection logic of websocket_endpoint, main.py lines
84 to 96, together with GameRoom.add_player lines 126 to 131.  A host
username always binds the fresh socket to the room.host object and is
added if absent; a non-host username already online is rejected with the
room unchanged; otherwise a brand-new Player with zero score and wins is
created and inserted. -/
def connectFn (s : RoomState) (u : String) : RoomState × ConnOutcome :=
  if u = s.host_name then
    if u ∈ usernames s.players then
      ({ s with players :=
          (updateP s.players u (fun p => { p with connected := true })) },
        .accepted)
    else
      ({ s with players :=
          s.players ++ [{ s.hostBench with connected := true }] }, .accepted)
  else
    match findP s.players u with
    | some p =>
      if p.connected then (s, .rejected)
      else ({ s with players :=
          (updateP s.players u (fun q => { q with connected := true })) },
        .accepted)
    | none =>
      ({ s with players := s.players ++
          [{ username := u, score := 0, wins := 0, has_answered := false,
             gave_up := false, guess_time := 0, connected := true }] },
        .accepted)

/-- Embedding of a websocket disconnect, main.py lines 129 to 133, calling
GameRoom.remove_player lines 145 to 153: the player object is popped from
the dict; if the room became empty or the host left, the state is forced
to GAME_OVER and the round task is cancelled.  When the host leaves, the
popped object survives as room.host, modelled by hostBench. -/
def disconnectFn (s : RoomState) (u : String) : RoomState :=
  if u ∈ usernames s.players then
    let rest := removeP s.players u
    let bench := if u = s.host_name then
        { ((findP s.players u).getD s.hostBench) with connected := false }
      else s.hostBench
    if rest = [] ∨ u = s.host_name then
      { s with players := rest, hostBench := bench,
               game_state := .GAME_OVER, round_tasks := s.round_tasks - 1 }
    else { s with players := rest, hostBench := bench }
  else s

/-- Embedding of a successful prepare_game_tracks, lines 224 to 262
followed by line 201: shuffled is the randomly shuffled list of unplayed
tracks; the requested round count is clamped to its length and that clamp
is written back to the settings, the clamp-many first shuffled tracks with
metadata become the game tracks, and the preparation-complete event is
set.  The ghost fields record the preparation. -/
def prepareFn (s : RoomState) (shuffled : List Track) : RoomState :=
  { s with total_rounds := min s.total_rounds shuffled.length,
           game_tracks :=
             (shuffled.take (min s.total_rounds shuffled.length)).filter
               (fun t => t.hasMeta),
           prep_complete := true,
           prepared := true,
           lastPrepUnplayed := shuffled.length }

/-- Embedding of a failed preparation, lines 243 to 245 with lines 194 to
197 of prepare_game_in_background: the room is put back to LOBBY. -/
def prepareFailFn (s : RoomState) : RoomState := { s with game_state := .LOBBY }

/-- Embedding of start_game, lines 268 to 295: a no-op unless the starter
is the host and the state is not PLAYING; waits for the preparation event,
modelled by requiring prep_complete (a call made before the event is set
stays suspended and changes nothing); when no tracks were prepared the
room is put back to LOBBY with an error broadcast, lines 274 to 277;
otherwise every player is reset for a new game, the round index is
zeroed, the state moves to PLAYING and one new game_loop task starts. -/
def startGameFn (s : RoomState) (starter : String) : RoomState :=
  if starter = s.host_name ∧ s.game_state ≠ .PLAYING ∧
      s.prep_complete = true then
    if s.game_tracks = [] then { s with game_state := .LOBBY }
    else
      { s with players := s.players.map resetGame
               current_round := 0
               game_state := .PLAYING
               round_tasks := s.round_tasks + 1 }
  else s

/-- Embedding of the state change of run_next_round, lines 302 to 328:
the round index advances, every player is reset for the round, and the
round start time is recorded. -/
def roundStartFn (s : RoomState) (now : ℚ) : RoomState :=
  { s with current_round := s.current_round + 1
           players := s.players.map resetRound
           round_start_time := now }

/-- Title of current_song, set on line 304 to the track at the zero-based
index current_round minus one. -/
def currentTitle (s : RoomState) : List Char :=
  match s.game_tracks[s.current_round - 1]? with
  | some t => t.title
  | none => []

/-- Outcome of handle_guess towards the guessing client. -/
inductive GuessOutcome where
  | accepted
  | wrongGuess
  | ignored
  deriving DecidableEq

/-- Embedding of handle_guess, lines 337 to 362: ignored unless the state
is PLAYING and the player exists and is still undecided; the guess is
accepted exactly when guess and current title normalize to equal strings,
recording the elapsed time; otherwise private negative feedback. -/
def handleGuessFn (s : RoomState) (u : String) (g : List Char) (now : ℚ) :
    RoomState × GuessOutcome :=
  match findP s.players u with
  | none => (s, .ignored)
  | some p =>
    if s.game_state ≠ .PLAYING ∨ p.has_answered = true ∨ p.gave_up = true then
      (s, .ignored)
    else if normalize_string g = normalize_string (currentTitle s) then
      ({ s with players := updateP s.players u (fun q =>
          { q with has_answered := true,
                   guess_time := now - s.round_start_time }) }, .accepted)
    else (s, .wrongGuess)

/-- Embedding of handle_give_up, lines 364 to 370. -/
def giveUpFn (s : RoomState) (u : String) : RoomState :=
  match findP s.players u with
  | none => s
  | some p =>
    if s.game_state ≠ .PLAYING ∨ p.has_answered = true ∨ p.gave_up = true then s
    else { s with players :=
        (updateP s.players u (fun q => { q with gave_up := true })) }

/-- Embedding of the first phase of end_round, lines 372 to 412: a no-op
when the state is already ROUND_OVER, which makes the scoring run at most
once per round; otherwise the state moves to ROUND_OVER and the scoring
pass runs. -/
def endRoundScoreFn (s : RoomState) : RoomState :=
  if s.game_state = .ROUND_OVER then s
  else { s with game_state := .ROUND_OVER,
                players := scoreRound s.round_duration s.players }

/-- Embedding of the last line of end_round, line 418, executed after the
fixed reveal pause: the state is set back to PLAYING. -/
def endRoundResumeFn (s : RoomState) : RoomState :=
  { s with game_state := .PLAYING }

/-- First player of maximal score in iteration order, modelling the
built-in max with a score key on line 426. -/
def firstMaxBy : List PlayerM → Option PlayerM
  | [] => none
  | p :: ps =>
    some (ps.foldl (fun best q => if best.score < q.score then q else best) p)

/-- Embedding of end_game, lines 420 to 438: the state becomes GAME_OVER,
every selected track id joins played_track_ids, the first maximal-score
player gains a win, and the finished game_loop task ends. -/
def endGameFn (s : RoomState) : RoomState :=
  { s with game_state := .GAME_OVER,
           played_track_ids := s.played_track_ids ++
             (s.game_tracks.map Track.tid).filter
               (fun i => !(s.played_track_ids.contains i)),
           players := match firstMaxBy s.players with
             | some w => updateP s.players w.username
                 (fun p => { p with wins := p.wins + 1 })
             | none => s.players,
           round_tasks := s.round_tasks - 1 }

/-- Embedding of the room-side effects of reset_for_new_game, lines 440
to 464: host-only; with a new playlist the url is replaced and the played
set cleared; the room returns to LOBBY with cleared tracks, a cleared
preparation event, and every player reset for a new game.  The round
index, the settings and the task counter are untouched. -/
def resetRoomFn (s : RoomState) (newUrl : Option String) (starter : String) :
    RoomState :=
  if starter = s.host_name then
    match newUrl with
    | some u =>
      { s with playlist_url := u, played_track_ids := [],
               game_state := .LOBBY, game_tracks := [], prep_complete := false,
               players := s.players.map resetGame }
    | none =>
      { s with game_state := .LOBBY, game_tracks := [], prep_complete := false,
               players := s.players.map resetGame }
  else s

/-- View of the state touched by the cache clause of reset_for_new_game:
the current playlist url, the key set of the global playlist_cache, and
played_track_ids. -/
structure ResetView where
  url : String
  cacheKeys : List String
  played : List String
  deriving DecidableEq

/-- Embedding of lines 440 to 449 of reset_for_new_game on that view: when
the starter is the host and a new playlist is supplied, the code first
reassigns self.playlist_url to the new identifier and only then pops the
cache entry of self.playlist_url, so the popped key is the new identifier,
and played_track_ids is cleared; with no new playlist, url, cache and
played set are unchanged. -/
def resetCacheFn (v : ResetView) (newUrl : Option String) (isHost : Bool) :
    ResetView :=
  if isHost = true then
    match newUrl with
    | some u => { url := u, cacheKeys := v.cacheKeys.erase u, played := [] }
    | none => v
  else v

/-- One observable transition of a room.  Transitions are the state
updates of the coroutine bodies in program order; end_round is split at
its internal pause into its scoring phase and its resumption, which is
where other handlers can observe ROUND_OVER.  The two end_round phases
only require a live round task: end_round runs from the finally clause of
run_next_round in whatever state the room then is, and line 418 sets the
state back to PLAYING unconditionally, so a round task left running by a
mid-round reset still fires them from LOBBY.  Handler-driven transitions
carry the precondition that the acting username is connected, since only
a connected socket delivers its messages. -/
inductive Step : RoomState → RoomState → Prop where
  | connect (s : RoomState) (u : String) : Step s (connectFn s u).1
  | disconnect (s : RoomState) (u : String) : Step s (disconnectFn s u)
  | prepare (s : RoomState) (spotify shuffled : List Track)
      (hperm : shuffled.Perm (spotify.filter
        (fun t => !(s.played_track_ids.contains t.tid))))
      (hne : shuffled ≠ [])
      (hpre : s.prep_complete = false) :
      Step s (prepareFn s shuffled)
  | prepareFail (s : RoomState) (spotify : List Track)
      (hempty : spotify.filter
        (fun t => !(s.played_track_ids.contains t.tid)) = [])
      (hpre : s.prep_complete = false) :
      Step s (prepareFailFn s)
  | startGame (s : RoomState) (starter : String)
      (hin : starter ∈ usernames s.players) :
      Step s (startGameFn s starter)
  | roundStart (s : RoomState) (now : ℚ)
      (hstate : s.game_state = .PLAYING)
      (htask : 1 ≤ s.round_tasks)
      (hlt : s.current_round < s.game_tracks.length) :
      Step s (roundStartFn s now)
  | guess (s : RoomState) (u : String) (g : List Char) (now : ℚ) :
      Step s (handleGuessFn s u g now).1
  | giveUp (s : RoomState) (u : String) : Step s (giveUpFn s u)
  | endRoundScore (s : RoomState)
      (htask : 1 ≤ s.round_tasks) :
      Step s (endRoundScoreFn s)
  | endRoundResume (s : RoomState)
      (htask : 1 ≤ s.round_tasks) :
      Step s (endRoundResumeFn s)
  | endGame (s : RoomState)
      (htask : 1 ≤ s.round_tasks)
      (hdone : ¬(s.current_round < s.game_tracks.length ∧
        s.game_state = .PLAYING)) :
      Step s (endGameFn s)
  | reset (s : RoomState) (newUrl : Option String) (starter : String)
      (hin : starter ∈ usernames s.players) :
      Step s (resetRoomFn s newUrl starter)

/-- Reachability of a room state from a freshly created room. -/
def RoomReachable (init s : RoomState) : Prop := Relation.ReflTransGen Step init s

/-- Registry room record: the room seen through its immutable code. -/
structure RoomR where
  code : String
  deriving DecidableEq

/-- Embedding of GameManager.create_room line 472: Python dict assignment
at the key room.room_id, replacing in place or appending. -/
def regInsert (rooms : List (String × RoomR)) (r : RoomR) :
    List (String × RoomR) :=
  if r.code ∈ rooms.map Prod.fst then
    rooms.map (fun pr => if pr.1 = r.code then (pr.1, r) else pr)
  else rooms ++ [(r.code, r)]

/-- Embedding of GameManager.remove_room lines 479 to 485. -/
def regRemove (rooms : List (String × RoomR)) (c : String) :
    List (String × RoomR) :=
  rooms.filter (fun pr => !(pr.1 == c))

/-- Registry transitions: create_room with an arbitrary generated code,
and remove_room. -/
inductive RegStep : List (String × RoomR) → List (String × RoomR) → Prop where
  | create (rooms : List (String × RoomR)) (code : String) :
      RegStep rooms (regInsert rooms ⟨code⟩)
  | remove (rooms : List (String × RoomR)) (code : String) :
      RegStep rooms (regRemove rooms code)

/-- Registry reachability from the empty registry of GameManager.__init__
line 468. -/
def RegReachable (rooms : List (String × RoomR)) : Prop :=
  Relation.ReflTransGen RegStep [] rooms

/-- Registry invariant: stored keys are duplicate-free and every stored
room's immutable code equals its key. -/
def RegInv (rooms : List (String × RoomR)) : Prop :=
  (rooms.map Prod.fst).Nodup ∧ ∀ pr ∈ rooms, pr.2.code = pr.1

/-- Room invariant for the round-index claims: the prepared track list
never exceeds the clamped round total, and the clamp never exceeds the
unplayed count seen by the latest preparation.  No state invariant bounds
current_round by total_rounds: a reset during a round neither cancels the
round task nor resets current_round, so the stale index can exceed a
freshly shrunken clamp even in ROUND_OVER. -/
def RoomInv (s : RoomState) : Prop :=
  s.game_tracks.length ≤ s.total_rounds ∧
  (s.prepared = true → s.total_rounds ≤ s.lastPrepUnplayed)

/-- Example tracks for the concrete traces. -/
def trackA : Track := { tid := "a", title := "alpha".toList, hasMeta := true }

/-- Second example track. -/
def trackB : Track := { tid := "b", title := "beta".toList, hasMeta := true }

/-- Third example track. -/
def trackC : Track := { tid := "c", title := "gamma".toList, hasMeta := true }

/-- Trace for claims C3 and C6: a two-round game on a three-track playlist
followed by a host rematch on the same playlist.  Fresh room requesting
two rounds. -/
def exInit : RoomState := initRoom "h" "u" 30 2

/-- Host connects. -/
def exS1 : RoomState := (connectFn exInit "h").1

/-- Preparation sees three unplayed tracks and clamps to two rounds. -/
def exS2 : RoomState := prepareFn exS1 [trackA, trackB, trackC]

/-- Host starts the game. -/
def exS3 : RoomState := startGameFn exS2 "h"

/-- Round one starts. -/
def exS4 : RoomState := roundStartFn exS3 1

/-- Round one is scored. -/
def exS5 : RoomState := endRoundScoreFn exS4

/-- Round one reveal pause ends. -/
def exS6 : RoomState := endRoundResumeFn exS5

/-- Round two starts. -/
def exS7 : RoomState := roundStartFn exS6 2

/-- Round two is scored. -/
def exS8 : RoomState := endRoundScoreFn exS7

/-- Round two reveal pause ends. -/
def exS9 : RoomState := endRoundResumeFn exS8

/-- The round loop exhausts its tracks and the game ends, recording both
played tracks. -/
def exS10 : RoomState := endGameFn exS9

/-- Host asks for a rematch on the same playlist. -/
def exS11 : RoomState := resetRoomFn exS10 none "h"

/-- The rematch preparation sees a single unplayed track and clamps
total_rounds to one, while current_round still holds two. -/
def exS12 : RoomState := prepareFn exS11 [trackC]

/-- State for claim C6: the host sends start_game while round one of the
running game is in its ROUND_OVER reveal pause. -/
def exBug : RoomState := startGameFn exS5 "h"

/-- Track of the one-song replacement playlist in the mid-round reset
trace. -/
def trackD : Track := { tid := "d", title := "delta".toList, hasMeta := true }

/-- Mid-round reset: while round two of two is still running at exS7, the
host sends play_again with a new one-track playlist.  reset_for_new_game
neither cancels the round task nor resets current_round. -/
def exR8 : RoomState := resetRoomFn exS7 (some "u2") "h"

/-- The rematch preparation sees the single unplayed track of the new
playlist and clamps total_rounds to one, current_round still two. -/
def exR9 : RoomState := prepareFn exR8 [trackD]

/-- The abandoned round task of the old game reaches its finally clause:
end_round sees a state other than ROUND_OVER and sets ROUND_OVER, giving
a ROUND_OVER state with current_round two above total_rounds one. -/
def exR10 : RoomState := endRoundScoreFn exR9

/-- Trace for claim C7: a one-round game between host h and guest b, after
which b disconnects and reconnects.  Fresh room requesting one round. -/
def tr0 : RoomState := initRoom "h" "u" 30 1

/-- Host connects. -/
def tr1 : RoomState := (connectFn tr0 "h").1

/-- Guest b connects. -/
def tr2 : RoomState := (connectFn tr1 "b").1

/-- Preparation selects the single track. -/
def tr3 : RoomState := prepareFn tr2 [trackA]

/-- Host starts the game. -/
def tr4 : RoomState := startGameFn tr3 "h"

/-- The round starts at time ten. -/
def tr5 : RoomState := roundStartFn tr4 10

/-- Guest b answers correctly immediately. -/
def tr6 : RoomState := (handleGuessFn tr5 "b" "alpha".toList 10).1

/-- The round is scored: b gains fifty base points and a solo bonus of
five for a two-player room. -/
def tr7 : RoomState := endRoundScoreFn tr6

/-- The reveal pause ends. -/
def tr8 : RoomState := endRoundResumeFn tr7

/-- The game ends and b, the maximal scorer, gains a win. -/
def tr9 : RoomState := endGameFn tr8

/-- Guest b disconnects and is popped from the players dict. -/
def tr10 : RoomState := disconnectFn tr9 "b"

/-- Guest b reconnects under the same username and receives a brand-new
player object. -/
def tr11 : RoomState := (connectFn tr10 "b").1

/-- Concrete registry holding two rooms. -/
def regsEx : List (String × RoomR) :=
  regInsert (regInsert [] ⟨"AAAAA"⟩) ⟨"BBBBB"⟩

/-- Concrete player for the scoring witness: answered after two seconds. -/
def cPH : PlayerM :=
  { username := "h", score := 3, wins := 0, has_answered := true,
    gave_up := false, guess_time := 2, connected := true }

/-- Concrete player for the scoring witness: answered after five seconds. -/
def cPB : PlayerM :=
  { username := "b", score := 0, wins := 0, has_answered := true,
    gave_up := false, guess_time := 5, connected := true }

/-- Concrete player for the scoring witness: did not answer. -/
def cPC : PlayerM :=
  { username := "c", score := 1, wins := 0, has_answered := false,
    gave_up := false, guess_time := 0, connected := true }

end GuessSong

namespace GuessSong

lemma isKeep_ranges {c : Char} (h : isKeep c = true) :
    (97 ≤ c.toNat ∧ c.toNat ≤ 122) ∨ (48 ≤ c.toNat ∧ c.toNat ≤ 57) ∨
      c.toNat = 92 ∨ c.toNat = 39 := by
  simp only [isKeep, Bool.or_eq_true, Bool.and_eq_true, decide_eq_true_eq,
    Nat.beq_eq_true_eq] at h
  omega

lemma isKeep_not_ws {c : Char} (h : isKeep c = true) : isWS c = false := by
  have := isKeep_ranges h
  rw [Bool.eq_false_iff]
  simp only [isWS, ne_eq, Bool.or_eq_true, Nat.beq_eq_true_eq]
  omega

lemma isKeep_not_open {c : Char} (h : isKeep c = true) : isOpenB c = false := by
  have := isKeep_ranges h
  rw [Bool.eq_false_iff]
  simp only [isOpenB, ne_eq, Bool.or_eq_true, Nat.beq_eq_true_eq]
  omega

lemma isKeep_not_bracket {c : Char} (h : isKeep c = true) :
    isBracketB c = false := by
  have := isKeep_ranges h
  rw [Bool.eq_false_iff]
  simp only [isBracketB, ne_eq, Bool.or_eq_true, Nat.beq_eq_true_eq]
  omega

lemma isKeep_not_space {c : Char} (h : isKeep c = true) : c.toNat ≠ 32 := by
  have := isKeep_ranges h
  omega

lemma isKeep_asciiLower {c : Char} (h : isKeep c = true) : asciiLower c = c := by
  have := isKeep_ranges h
  unfold asciiLower
  rw [if_neg]
  simp only [Bool.and_eq_true, decide_eq_true_eq, not_and]
  omega

lemma dropWhile_all_not {p : Char → Bool} {s : List Char}
    (h : ∀ c ∈ s, p c = false) : s.dropWhile p = s := by
  cases s with
  | nil => rfl
  | cons c cs =>
    rw [List.dropWhile_cons, if_neg]
    simp [h c (by simp)]

lemma stripWS_of_keep (s : List Char) (h : s.all isKeep) : stripWS s = s := by
  have hws : ∀ c ∈ s, isWS c = false := fun c hc =>
    isKeep_not_ws (by exact List.all_eq_true.mp h c hc)
  unfold stripWS
  rw [dropWhile_all_not hws, dropWhile_all_not (fun c hc => hws c (by
    simpa using hc)), List.reverse_reverse]

lemma annMatchEnd_of_no_open {s : List Char}
    (h : ∀ c ∈ s, isOpenB c = false) : annMatchEnd s = none := by
  unfold annMatchEnd
  have hsub : ∀ c ∈ s.dropWhile isWS, isOpenB c = false := fun c hc =>
    h c ((List.dropWhile_sublist isWS).mem hc)
  cases hd : s.dropWhile isWS with
  | nil => rfl
  | cons c cs =>
    have : isOpenB c = false := hsub c (by rw [hd]; simp)
    simp [this]

lemma annSubF_of_no_open (f : Nat) (s : List Char)
    (h : ∀ c ∈ s, isOpenB c = false) : annSubF f s = s := by
  induction f generalizing s with
  | zero => rfl
  | succ f ih =>
    cases s with
    | nil => rfl
    | cons c cs =>
      rw [annSubF, annMatchEnd_of_no_open h]
      rw [ih cs (fun x hx => h x (by simp [hx]))]

lemma annSub_of_keep (s : List Char) (h : s.all isKeep) : annSub s = s :=
  annSubF_of_no_open _ s fun c hc =>
    isKeep_not_open (List.all_eq_true.mp h c hc)

lemma splitDashFirst_of_keep (s : List Char) (h : s.all isKeep) :
    splitDashFirst s = s := by
  induction s with
  | nil => rfl
  | cons c cs ih =>
    rw [List.all_cons, Bool.and_eq_true] at h
    have hdash : dashAt (c :: cs) = false := by
      cases cs with
      | nil => rfl
      | cons c2 cs2 =>
        cases cs2 with
        | nil => rfl
        | cons c3 cs3 =>
          have h32 := isKeep_not_space h.1
          rw [Bool.eq_false_iff]
          simp only [dashAt, ne_eq, Bool.and_eq_true, Nat.beq_eq_true_eq]
          intro hcontra
          exact h32 hcontra.1.1
    rw [splitDashFirst, if_neg (by simp [hdash])]
    rw [ih h.2]

lemma map_asciiLower_of_keep (s : List Char) (h : s.all isKeep) :
    s.map asciiLower = s := by
  induction s with
  | nil => rfl
  | cons c cs ih =>
    rw [List.all_cons, Bool.and_eq_true] at h
    rw [List.map_cons, isKeep_asciiLower h.1, ih h.2]

lemma filter_eq_self_of_true (p : Char → Bool) (s : List Char)
    (h : ∀ c ∈ s, p c = true) : s.filter p = s :=
  List.filter_eq_self.mpr h

lemma pyWordsAux_no_ws (s : List Char) (acc : List Char)
    (h : ∀ c ∈ s, isWS c = false) :
    pyWordsAux s acc =
      if acc = [] ∧ s = [] then [] else [acc.reverse ++ s] := by
  induction s generalizing acc with
  | nil =>
    by_cases hacc : acc = []
    · subst hacc; rfl
    · rw [pyWordsAux, if_neg (by simpa using hacc),
        if_neg (by simp [hacc])]
      simp
  | cons c cs ih =>
    rw [pyWordsAux, if_neg (by simp [h c (by simp)])]
    rw [ih (c :: acc) (fun x hx => h x (by simp [hx]))]
    rw [if_neg (by simp)]
    simp

lemma joined_words_of_keep (s : List Char) (h : s.all isKeep) :
    stripWS (joinSpace (pyWordsAux s [])) = s := by
  have hws : ∀ c ∈ s, isWS c = false := fun c hc =>
    isKeep_not_ws (List.all_eq_true.mp h c hc)
  rw [pyWordsAux_no_ws s [] hws]
  by_cases hs : s = []
  · subst hs; rfl
  · rw [if_neg (by simp [hs])]
    simpa [joinSpace] using stripWS_of_keep s h

lemma normalize_of_keep {s : List Char} (h : s.all isKeep) :
    normalize_string s = s := by
  unfold normalize_string
  rw [map_asciiLower_of_keep s h, annSub_of_keep s h, stripWS_of_keep s h,
    splitDashFirst_of_keep s h,
    filter_eq_self_of_true (fun c => !(isBracketB c)) s (fun c hc =>
      by simp [isKeep_not_bracket (List.all_eq_true.mp h c hc)]),
    stripWS_of_keep s h,
    filter_eq_self_of_true isKeep s (fun c hc => List.all_eq_true.mp h c hc)]
  exact joined_words_of_keep s h

lemma normalize_all_keep (s : List Char) :
    (normalize_string s).all isKeep := by
  unfold normalize_string
  have h5 : ((stripWS ((splitDashFirst (stripWS (annSub (s.map asciiLower)))).filter
      (fun c => !(isBracketB c)))).filter isKeep).all isKeep := by
    rw [List.all_eq_true]
    intro c hc
    exact (List.mem_filter.mp hc).2
  rw [joined_words_of_keep _ h5]
  exact h5

/-- Claim C10: the guess-normalization function of game_manager.py line 43
is idempotent: normalizing an already-normalized string returns it
unchanged, for every input string. -/
theorem normalize_idempotent (s : List Char) :
    normalize_string (normalize_string s) = normalize_string s :=
  normalize_of_keep (normalize_all_keep s)

/-- Claim C2, counterexample: contrary to the spec, the normalization of
"Bohemian Rhapsody (Live at Wembley)" differs from that of
"bohemian rhapsody": the annotation regex only fires when a keyword
immediately precedes the closing bracket, and the character class of
line 48 removes whitespace, so the left side normalizes to
"bohemianrhapsodyliveatwembley" and the right side to "bohemianrhapsody". -/
theorem normalize_wembley_ne :
    normalize_string "Bohemian Rhapsody (Live at Wembley)".toList ≠
      normalize_string "bohemian rhapsody".toList ∧
    normalize_string "Bohemian Rhapsody (Live at Wembley)".toList =
      "bohemianrhapsodyliveatwembley".toList ∧
    normalize_string "bohemian rhapsody".toList =
      "bohemianrhapsody".toList := by
  refine ⟨by decide, by decide, by decide⟩

/-- Claim C2, amended: handle_guess accepts a guess exactly when the room
is PLAYING, the player exists and is still undecided, and the guess and
the current title are equal under the one shared normalization; that
normalization however only strips a bracketed annotation when one of the
keywords immediately precedes the closing bracket, merely deletes the
bracket characters of other bracketed content, and removes every
character outside lowercase letters, digits, backslash and apostrophe,
including all whitespace, so that "Bohemian Rhapsody (Live at Wembley)"
normalizes to "bohemianrhapsodyliveatwembley" and not to
"bohemianrhapsody". -/
theorem handle_guess_accepts_iff (s : RoomState) (u : String) (g : List Char)
    (now : ℚ) :
    ((handleGuessFn s u g now).2 = .accepted ↔
      (s.game_state = .PLAYING ∧ ∃ p, findP s.players u = some p ∧
        p.has_answered = false ∧ p.gave_up = false ∧
        normalize_string g = normalize_string (currentTitle s))) ∧
    normalize_string "Bohemian Rhapsody (Live at Wembley)".toList =
      "bohemianrhapsodyliveatwembley".toList := by
  refine ⟨?_, by decide⟩
  unfold handleGuessFn
  cases hfind : findP s.players u with
  | none =>
    simp only [hfind]
    constructor
    · intro h
      exact absurd h (by simp)
    · rintro ⟨-, p, hp, -⟩
      exact absurd hp (by simp)
  | some p =>
    simp only [hfind]
    by_cases h1 : s.game_state ≠ GState.PLAYING ∨ p.has_answered = true ∨
        p.gave_up = true
    · rw [if_pos h1]
      constructor
      · intro h
        exact absurd h (by simp)
      · rintro ⟨hst, q, hq, hans, hgu, -⟩
        obtain rfl : p = q := Option.some_injective _ hq
        rcases h1 with h1 | h1 | h1
        · exact absurd hst h1
        · rw [h1] at hans
          exact absurd hans (by simp)
        · rw [h1] at hgu
          exact absurd hgu (by simp)
    · rw [if_neg h1]
      push_neg at h1
      obtain ⟨hst, hans, hgu⟩ := h1
      by_cases h2 : normalize_string g = normalize_string (currentTitle s)
      · rw [if_pos h2]
        simp only [true_iff]
        exact ⟨hst, p, rfl, by simpa using hans, by simpa using hgu, h2⟩
      · rw [if_neg h2]
        constructor
        · intro h
          exact absurd h (by simp)
        · rintro ⟨-, q, hq, -, -, hn⟩
          exact absurd hn h2

/-- Claim C5, counterexample: take a room on playlist A whose cache holds
entries for both A and the new playlist B.  A host reset to B leaves the
old entry A in the cache and instead removes the entry of B, because the
code reassigns self.playlist_url to B before popping the cache at
self.playlist_url.  The claim says the entry of the old identifier A is
invalidated, which is false here. -/
theorem reset_keeps_old_cache_entry :
    (resetCacheFn ⟨"A", ["A", "B"], ["t1"]⟩ (some "B") true).cacheKeys =
      ["A"] ∧
    "A" ∈ (resetCacheFn ⟨"A", ["A", "B"], ["t1"]⟩ (some "B") true).cacheKeys ∧
    "B" ∉ (resetCacheFn ⟨"A", ["A", "B"], ["t1"]⟩ (some "B") true).cacheKeys := by
  refine ⟨by decide, by decide, by decide⟩

/-- Claim C5, amended: when the host supplies a new playlist identifier,
reset_for_new_game reassigns playlist_url to it, removes the cache entry
of the NEW identifier, since the pop happens after the reassignment, and
clears played_track_ids; every other cache entry, in particular the old
playlist entry when distinct from the new one, survives.  With no new
playlist, or a non-host requester, url, cache and played set are all
unchanged. -/
theorem reset_cache_behavior (v : ResetView) (u : String)
    (hnodup : v.cacheKeys.Nodup) :
    (resetCacheFn v (some u) true).url = u ∧
    (resetCacheFn v (some u) true).played = [] ∧
    u ∉ (resetCacheFn v (some u) true).cacheKeys ∧
    (∀ k ∈ v.cacheKeys, k ≠ u →
      k ∈ (resetCacheFn v (some u) true).cacheKeys) ∧
    resetCacheFn v none true = v ∧
    (∀ w : Option String, resetCacheFn v w false = v) := by
  refine ⟨rfl, rfl, ?_, ?_, rfl, fun w => rfl⟩
  · exact hnodup.not_mem_erase
  · intro k hk hku
    exact (List.mem_erase_of_ne hku).mpr hk

/-- Witness for the amended claim C5 at a concrete cache. -/
theorem reset_cache_behavior_witness :
    (["A", "B"] : List String).Nodup ∧
    "B" ∉ (resetCacheFn ⟨"A", ["A", "B"], ["t1"]⟩ (some "B") true).cacheKeys :=
  ⟨by decide,
    (reset_cache_behavior ⟨"A", ["A", "B"], ["t1"]⟩ "B" (by decide)).2.2.1⟩

/-- Claim C4: a preparation never selects a track whose id is in
played_track_ids at selection time, since selection filters on exactly
that set, and end_game adds every selected track id to played_track_ids. -/
theorem prepare_excludes_played_and_end_game_records (s : RoomState)
    (spotify shuffled : List Track)
    (hperm : shuffled.Perm (spotify.filter
      (fun t => !(s.played_track_ids.contains t.tid)))) :
    (∀ t ∈ (prepareFn s shuffled).game_tracks,
      t.tid ∉ s.played_track_ids) ∧
    (∀ t ∈ s.game_tracks, t.tid ∈ (endGameFn s).played_track_ids) := by
  constructor
  · intro t ht
    have ht1 : t ∈ shuffled :=
      (List.take_sublist _ _).mem (List.mem_of_mem_filter ht)
    have ht2 : t ∈ spotify.filter
        (fun t => !(s.played_track_ids.contains t.tid)) :=
      hperm.mem_iff.mp ht1
    have := List.of_mem_filter ht2
    simpa using this
  · intro t ht
    simp only [endGameFn, List.mem_append, List.mem_filter]
    by_cases hmem : t.tid ∈ s.played_track_ids
    · exact Or.inl hmem
    · refine Or.inr ⟨List.mem_map_of_mem Track.tid ht, ?_⟩
      simpa using hmem

/-- Witness for claim C4 at a concrete room and playlist. -/
theorem prepare_excludes_played_witness :
    (([⟨"a", "x".toList, true⟩] : List Track).Perm
      (([⟨"a", "x".toList, true⟩, ⟨"b", "y".toList, true⟩] : List Track).filter
        (fun t => !((["b"] : List String).contains t.tid)))) ∧
    (∀ t ∈ (prepareFn { initRoom "h" "u" 30 3 with played_track_ids := ["b"] }
        [⟨"a", "x".toList, true⟩]).game_tracks,
      t.tid ∉ (["b"] : List String)) := by
  refine ⟨by decide, ?_⟩
  have h := prepare_excludes_played_and_end_game_records
    { initRoom "h" "u" 30 3 with played_track_ids := ["b"] }
    [⟨"a", "x".toList, true⟩, ⟨"b", "y".toList, true⟩]
    [⟨"a", "x".toList, true⟩] (by decide)
  exact h.1

lemma regInsert_inv (rooms : List (String × RoomR)) (r : RoomR)
    (h : RegInv rooms) : RegInv (regInsert rooms r) := by
  obtain ⟨hnd, hcode⟩ := h
  unfold regInsert
  by_cases hmem : r.code ∈ rooms.map Prod.fst
  · rw [if_pos hmem]
    constructor
    · have hkeys : (rooms.map
          (fun pr => if pr.1 = r.code then (pr.1, r) else pr)).map Prod.fst =
          rooms.map Prod.fst := by
        rw [List.map_map]
        apply List.map_congr_left
        intro pr _
        by_cases hpr : pr.1 = r.code <;> simp [hpr]
      rw [hkeys]
      exact hnd
    · intro pr hpr
      rw [List.mem_map] at hpr
      obtain ⟨q, hq, heq⟩ := hpr
      by_cases hqe : q.1 = r.code
      · rw [if_pos hqe] at heq
        rw [← heq]
        exact hqe.symm
      · rw [if_neg hqe] at heq
        rw [← heq]
        exact hcode q hq
  · rw [if_neg hmem]
    constructor
    · rw [List.map_append, List.nodup_append]
      refine ⟨hnd, by simp, ?_⟩
      intro a ha hb
      rw [List.map_singleton, List.mem_singleton] at hb
      rw [hb] at ha
      exact hmem ha
    · intro pr hpr
      rcases List.mem_append.mp hpr with hl | hr
      · exact hcode pr hl
      · simp only [List.mem_singleton] at hr
        rw [hr]

lemma regRemove_inv (rooms : List (String × RoomR)) (c : String)
    (h : RegInv rooms) : RegInv (regRemove rooms c) := by
  obtain ⟨hnd, hcode⟩ := h
  constructor
  · exact hnd.sublist ((List.filter_sublist rooms).map Prod.fst)
  · intro pr hpr
    exact hcode pr (List.mem_of_mem_filter hpr)

lemma regReachable_inv (rooms : List (String × RoomR))
    (h : RegReachable rooms) : RegInv rooms := by
  induction h with
  | refl => exact ⟨by simp, by simp⟩
  | tail hsteps hstep ih =>
    cases hstep with
    | create code => exact regInsert_inv _ ⟨code⟩ ih
    | remove code => exact regRemove_inv _ code ih

/-- Claim C9: at every reachable registry state no two stored rooms share
a room code: the registry is a dict keyed by the immutable room code, so
entry keys are duplicate-free and each stored room's code equals its
key. -/
theorem room_codes_unique (rooms : List (String × RoomR))
    (h : RegReachable rooms) (i j : ℕ) (hi : i < rooms.length)
    (hj : j < rooms.length) (hij : i ≠ j) :
    (rooms.get ⟨i, hi⟩).2.code ≠ (rooms.get ⟨j, hj⟩).2.code := by
  obtain ⟨hnd, hcode⟩ := regReachable_inv rooms h
  have hpw : rooms.Pairwise (fun a b => a.1 ≠ b.1) := List.pairwise_map.mp hnd
  have hci : (rooms.get ⟨i, hi⟩).2.code = (rooms.get ⟨i, hi⟩).1 :=
    hcode _ (List.get_mem rooms i hi)
  have hcj : (rooms.get ⟨j, hj⟩).2.code = (rooms.get ⟨j, hj⟩).1 :=
    hcode _ (List.get_mem rooms j hj)
  rw [hci, hcj]
  have hget := List.pairwise_iff_get.mp hpw
  rcases Nat.lt_or_ge i j with hlt | hge
  · exact hget ⟨i, hi⟩ ⟨j, hj⟩ hlt
  · have hlt : j < i := lt_of_le_of_ne hge (fun heq => hij heq.symm)
    exact fun heq => (hget ⟨j, hj⟩ ⟨i, hi⟩ hlt) heq.symm

/-- Witness for claim C9 at a concrete two-room registry. -/
theorem room_codes_unique_witness :
    RegReachable regsEx ∧
    (regsEx.get ⟨0, (by decide)⟩).2.code ≠
      (regsEx.get ⟨1, (by decide)⟩).2.code := by
  have hreach : RegReachable regsEx :=
    Relation.ReflTransGen.tail
      (Relation.ReflTransGen.single (RegStep.create [] "AAAAA"))
      (RegStep.create _ "BBBBB")
  exact ⟨hreach,
    room_codes_unique regsEx hreach 0 1 (by decide) (by decide) (by decide)⟩

lemma usernames_map_of_preserve (l : List PlayerM) (f : PlayerM → PlayerM)
    (hf : ∀ p, (f p).username = p.username) :
    usernames (l.map f) = usernames l := by
  unfold usernames
  rw [List.map_map]
  apply List.map_congr_left
  intro p _
  exact hf p

lemma usernames_updateP (l : List PlayerM) (u : String) (f : PlayerM → PlayerM)
    (hf : ∀ p, (f p).username = p.username) :
    usernames (updateP l u f) = usernames l := by
  unfold updateP
  apply usernames_map_of_preserve
  intro p
  by_cases h : p.username == u <;> simp [h, hf]

lemma usernames_scoreRound (dur : ℚ) (l : List PlayerM) :
    usernames (scoreRound dur l) = usernames l := by
  unfold scoreRound
  apply usernames_map_of_preserve
  intro p
  by_cases h : p.has_answered <;> simp [h]

lemma usernames_handleGuess (s : RoomState) (u : String) (g : List Char)
    (now : ℚ) :
    usernames (handleGuessFn s u g now).1.players = usernames s.players := by
  unfold handleGuessFn
  cases hfind : findP s.players u with
  | none => simp only [hfind]
  | some p =>
    simp only [hfind]
    by_cases h1 : s.game_state ≠ GState.PLAYING ∨ p.has_answered = true ∨
        p.gave_up = true
    · rw [if_pos h1]
    · rw [if_neg h1]
      by_cases h2 : normalize_string g = normalize_string (currentTitle s)
      · rw [if_pos h2]
        exact usernames_updateP _ _ _ (fun q => rfl)
      · rw [if_neg h2]

lemma usernames_giveUp (s : RoomState) (u : String) :
    usernames (giveUpFn s u).players = usernames s.players := by
  unfold giveUpFn
  cases hfind : findP s.players u with
  | none => simp only [hfind]
  | some p =>
    simp only [hfind]
    by_cases h1 : s.game_state ≠ GState.PLAYING ∨ p.has_answered = true ∨
        p.gave_up = true
    · rw [if_pos h1]
    · rw [if_neg h1]
      exact usernames_updateP _ _ _ (fun q => rfl)

lemma host_in_removeP (l : List PlayerM) (u host : String) (hne : host ≠ u)
    (h : host ∈ usernames l) : host ∈ usernames (removeP l u) := by
  unfold usernames at h ⊢
  unfold removeP
  rw [List.mem_map] at h ⊢
  obtain ⟨p, hp, hpu⟩ := h
  refine ⟨p, List.mem_filter.mpr ⟨hp, ?_⟩, hpu⟩
  rw [hpu]
  simp [hne]

/-- Claim C8, counterexample: a freshly created room is trivially
reachable, is in the non-terminal LOBBY state, and its players dict does
not contain the host, because create_room only constructs the GameRoom
while the host enters players when their websocket later connects. -/
theorem fresh_room_lacks_host :
    RoomReachable (initRoom "h" "u" 30 5) (initRoom "h" "u" 30 5) ∧
    (initRoom "h" "u" 30 5).game_state ≠ GState.GAME_OVER ∧
    "h" ∉ usernames (initRoom "h" "u" 30 5).players :=
  ⟨Relation.ReflTransGen.refl, by decide, by decide⟩

/-- Claim C8, amended: whenever a transition removes the host username
from the players dict, and only the host disconnect does, the room it
leaves behind is GAME_OVER; hence players contains the host at every
non-terminal state between the host joining and the host leaving.  Before
the host first connects, however, the room is non-terminal without the
host in players. -/
theorem host_departure_forces_game_over (s s2 : RoomState) (hstep : Step s s2)
    (hin : s.host_name ∈ usernames s.players)
    (hout : s.host_name ∉ usernames s2.players) :
    s2.game_state = GState.GAME_OVER := by
  cases hstep with
  | connect u =>
    exfalso
    apply hout
    unfold connectFn
    by_cases h1 : u = s.host_name
    · rw [if_pos h1]
      by_cases h2 : u ∈ usernames s.players
      · rw [if_pos h2]
        show s.host_name ∈ usernames (updateP s.players u
          (fun p => { p with connected := true }))
        rw [usernames_updateP s.players u
          (fun p => { p with connected := true }) (fun p => rfl)]
        exact hin
      · rw [if_neg h2]
        show s.host_name ∈
          usernames (s.players ++ [{ s.hostBench with connected := true }])
        unfold usernames
        rw [List.map_append]
        exact List.mem_append.mpr (Or.inl hin)
    · rw [if_neg h1]
      cases hfind : findP s.players u with
      | none =>
        simp only [hfind]
        show s.host_name ∈ usernames (s.players ++
          [{ username := u, score := 0, wins := 0, has_answered := false,
             gave_up := false, guess_time := 0, connected := true }])
        unfold usernames
        rw [List.map_append]
        exact List.mem_append.mpr (Or.inl hin)
      | some p =>
        simp only [hfind]
        by_cases h3 : p.connected
        · rw [if_pos h3]
          exact hin
        · rw [if_neg h3]
          show s.host_name ∈ usernames (updateP s.players u
            (fun q => { q with connected := true }))
          rw [usernames_updateP s.players u
            (fun q => { q with connected := true }) (fun q => rfl)]
          exact hin
  | disconnect u =>
    unfold disconnectFn at hout ⊢
    by_cases h1 : u ∈ usernames s.players
    · rw [if_pos h1] at hout ⊢
      by_cases h2 : removeP s.players u = [] ∨ u = s.host_name
      · rw [if_pos h2]
      · exfalso
        rw [if_neg h2] at hout
        push_neg at h2
        exact hout (host_in_removeP s.players u s.host_name
          (fun he => h2.2 he.symm) hin)
    · rw [if_neg h1] at hout
      exact absurd hin hout
  | prepare spotify shuffled hperm hne hpre => exact absurd hin hout
  | prepareFail spotify hempty hpre => exact absurd hin hout
  | startGame starter hin2 =>
    exfalso
    apply hout
    unfold startGameFn
    by_cases hc : starter = s.host_name ∧ s.game_state ≠ GState.PLAYING ∧
        s.prep_complete = true
    · rw [if_pos hc]
      by_cases hc2 : s.game_tracks = []
      · rw [if_pos hc2]
        exact hin
      · rw [if_neg hc2]
        show s.host_name ∈ usernames (s.players.map resetGame)
        rw [usernames_map_of_preserve s.players resetGame (fun p => rfl)]
        exact hin
    · rw [if_neg hc]
      exact hin
  | roundStart now hstate htask hlt =>
    exfalso
    apply hout
    show s.host_name ∈ usernames (s.players.map resetRound)
    rw [usernames_map_of_preserve s.players resetRound (fun p => rfl)]
    exact hin
  | guess u g now =>
    exfalso
    apply hout
    rw [usernames_handleGuess]
    exact hin
  | giveUp u =>
    exfalso
    apply hout
    rw [usernames_giveUp]
    exact hin
  | endRoundScore htask =>
    exfalso
    apply hout
    unfold endRoundScoreFn
    by_cases h1 : s.game_state = GState.ROUND_OVER
    · rw [if_pos h1]
      exact hin
    · rw [if_neg h1]
      show s.host_name ∈ usernames (scoreRound s.round_duration s.players)
      rw [usernames_scoreRound]
      exact hin
  | endRoundResume htask => exact absurd hin hout
  | endGame htask hdone =>
    rfl
  | reset newUrl starter hin2 =>
    exfalso
    apply hout
    unfold resetRoomFn
    by_cases hc : starter = s.host_name
    · rw [if_pos hc]
      cases newUrl with
      | some u =>
        show s.host_name ∈ usernames (s.players.map resetGame)
        rw [usernames_map_of_preserve s.players resetGame (fun p => rfl)]
        exact hin
      | none =>
        show s.host_name ∈ usernames (s.players.map resetGame)
        rw [usernames_map_of_preserve s.players resetGame (fun p => rfl)]
        exact hin
    · rw [if_neg hc]
      exact hin

/-- Witness for the amended claim C8: in a room where the host is
connected, the host disconnect leaves a GAME_OVER room. -/
theorem host_departure_witness :
    "h" ∈ usernames exS1.players ∧
    "h" ∉ usernames (disconnectFn exS1 "h").players ∧
    (disconnectFn exS1 "h").game_state = GState.GAME_OVER :=
  ⟨by decide, by decide,
    host_departure_forces_game_over exS1 (disconnectFn exS1 "h")
      (Step.disconnect exS1 "h") (by decide) (by decide)⟩

lemma connect_shape (s : RoomState) (u : String) :
    ∃ pl, (connectFn s u).1 = { s with players := pl } := by
  unfold connectFn
  by_cases h1 : u = s.host_name
  · rw [if_pos h1]
    by_cases h2 : u ∈ usernames s.players
    · rw [if_pos h2]
      exact ⟨_, rfl⟩
    · rw [if_neg h2]
      exact ⟨_, rfl⟩
  · rw [if_neg h1]
    cases hfind : findP s.players u with
    | none =>
      simp only [hfind]
      exact ⟨_, rfl⟩
    | some p =>
      simp only [hfind]
      by_cases h3 : p.connected
      · rw [if_pos h3]
        exact ⟨s.players, rfl⟩
      · rw [if_neg h3]
        exact ⟨_, rfl⟩

lemma handleGuess_shape (s : RoomState) (u : String) (g : List Char)
    (now : ℚ) :
    ∃ pl, (handleGuessFn s u g now).1 = { s with players := pl } := by
  unfold handleGuessFn
  cases hfind : findP s.players u with
  | none =>
    simp only [hfind]
    exact ⟨s.players, rfl⟩
  | some p =>
    simp only [hfind]
    by_cases h1 : s.game_state ≠ GState.PLAYING ∨ p.has_answered = true ∨
        p.gave_up = true
    · rw [if_pos h1]
      exact ⟨s.players, rfl⟩
    · rw [if_neg h1]
      by_cases h2 : normalize_string g = normalize_string (currentTitle s)
      · rw [if_pos h2]
        exact ⟨_, rfl⟩
      · rw [if_neg h2]
        exact ⟨s.players, rfl⟩

lemma giveUp_shape (s : RoomState) (u : String) :
    ∃ pl, giveUpFn s u = { s with players := pl } := by
  unfold giveUpFn
  cases hfind : findP s.players u with
  | none =>
    simp only [hfind]
    exact ⟨s.players, rfl⟩
  | some p =>
    simp only [hfind]
    by_cases h1 : s.game_state ≠ GState.PLAYING ∨ p.has_answered = true ∨
        p.gave_up = true
    · rw [if_pos h1]
      exact ⟨s.players, rfl⟩
    · rw [if_neg h1]
      exact ⟨_, rfl⟩

lemma roomInv_init (host url : String) (dur : ℚ) (n : ℕ) :
    RoomInv (initRoom host url dur n) :=
  ⟨Nat.zero_le _, fun hp => nomatch hp⟩

lemma roomInv_step (s s2 : RoomState) (hstep : Step s s2) (h : RoomInv s) :
    RoomInv s2 := by
  cases hstep with
  | connect u =>
    obtain ⟨pl, hpl⟩ := connect_shape s u
    rw [hpl]
    exact h
  | disconnect u =>
    unfold disconnectFn
    by_cases h1 : u ∈ usernames s.players
    · rw [if_pos h1]
      by_cases h2 : removeP s.players u = [] ∨ u = s.host_name
      · rw [if_pos h2]
        exact h
      · rw [if_neg h2]
        exact h
    · rw [if_neg h1]
      exact h
  | prepare spotify shuffled hperm hne hpre =>
    constructor
    · show ((shuffled.take (min s.total_rounds shuffled.length)).filter
          (fun t => t.hasMeta)).length ≤ min s.total_rounds shuffled.length
      refine le_trans (List.length_filter_le _ _) ?_
      rw [List.length_take]
      exact min_le_left _ _
    · intro _
      exact min_le_right _ _
  | prepareFail spotify hempty hpre =>
    exact h
  | startGame starter hin =>
    unfold startGameFn
    by_cases hc : starter = s.host_name ∧ s.game_state ≠ GState.PLAYING ∧
        s.prep_complete = true
    · rw [if_pos hc]
      by_cases hc2 : s.game_tracks = []
      · rw [if_pos hc2]
        exact h
      · rw [if_neg hc2]
        exact h
    · rw [if_neg hc]
      exact h
  | roundStart now hstate htask hlt =>
    exact h
  | guess u g now =>
    obtain ⟨pl, hpl⟩ := handleGuess_shape s u g now
    rw [hpl]
    exact h
  | giveUp u =>
    obtain ⟨pl, hpl⟩ := giveUp_shape s u
    rw [hpl]
    exact h
  | endRoundScore htask =>
    unfold endRoundScoreFn
    by_cases h1 : s.game_state = GState.ROUND_OVER
    · rw [if_pos h1]
      exact h
    · rw [if_neg h1]
      exact h
  | endRoundResume htask =>
    exact h
  | endGame htask hdone =>
    exact h
  | reset newUrl starter hin =>
    unfold resetRoomFn
    by_cases hc : starter = s.host_name
    · rw [if_pos hc]
      cases newUrl with
      | some u => exact ⟨Nat.zero_le _, h.2⟩
      | none => exact ⟨Nat.zero_le _, h.2⟩
    · rw [if_neg hc]
      exact h

lemma roomInv_reachable (host url : String) (dur : ℚ) (n : ℕ)
    (s : RoomState) (h : RoomReachable (initRoom host url dur n) s) :
    RoomInv s := by
  induction h with
  | refl => exact roomInv_init host url dur n
  | tail hsteps hstep ih => exact roomInv_step _ _ hstep ih

/-- Claim C3, counterexample: two reachable violations of the claimed
invariant.  First, run a two-round game on a three-track playlist to its
end and let the host request a rematch on the same playlist: the rematch
preparation sees one remaining unplayed track and clamps total_rounds to
one, while current_round, which reset_for_new_game never resets, still
holds two, so the LOBBY state exS12 has current_round above total_rounds.
Second, let the host send play_again with a one-track new playlist while
round two is still running: reset_for_new_game does not cancel the round
task either, the rematch preparation clamps total_rounds to one, and the
abandoned round task's end_round then fires from the finally clause and
sets ROUND_OVER, so the ROUND_OVER state exR10 also has current_round
two above total_rounds one. -/
theorem current_round_exceeds_total_rounds :
    (RoomReachable exInit exS12 ∧ exS12.total_rounds < exS12.current_round) ∧
    (RoomReachable exInit exR10 ∧ exR10.game_state = GState.ROUND_OVER ∧
      exR10.total_rounds < exR10.current_round) := by
  have h1 : Step exInit exS1 := Step.connect exInit "h"
  have h2 : Step exS1 exS2 := Step.prepare exS1 [trackA, trackB, trackC]
    [trackA, trackB, trackC] (by decide) (by decide) (by decide)
  have h3 : Step exS2 exS3 := Step.startGame exS2 "h" (by decide)
  have h4 : Step exS3 exS4 := Step.roundStart exS3 1 (by decide) (by decide)
    (by decide)
  have h5 : Step exS4 exS5 := Step.endRoundScore exS4 (by decide)
  have h6 : Step exS5 exS6 := Step.endRoundResume exS5 (by decide)
  have h7 : Step exS6 exS7 := Step.roundStart exS6 2 (by decide) (by decide)
    (by decide)
  have hreach7 : RoomReachable exInit exS7 :=
    ((((((Relation.ReflTransGen.single h1).tail h2).tail h3).tail h4).tail
      h5).tail h6).tail h7
  constructor
  · have h8 : Step exS7 exS8 := Step.endRoundScore exS7 (by decide)
    have h9 : Step exS8 exS9 := Step.endRoundResume exS8 (by decide)
    have h10 : Step exS9 exS10 := Step.endGame exS9 (by decide) (by decide)
    have h11 : Step exS10 exS11 := Step.reset exS10 none "h" (by decide)
    have h12 : Step exS11 exS12 := Step.prepare exS11
      [trackA, trackB, trackC] [trackC] (by decide) (by decide) (by decide)
    exact ⟨((((hreach7.tail h8).tail h9).tail h10).tail h11).tail h12,
      by decide⟩
  · have h8 : Step exS7 exR8 := Step.reset exS7 (some "u2") "h" (by decide)
    have h9 : Step exR8 exR9 := Step.prepare exR8 [trackD] [trackD]
      (by decide) (by decide) (by decide)
    have h10 : Step exR9 exR10 := Step.endRoundScore exR9 (by decide)
    exact ⟨((hreach7.tail h8).tail h9).tail h10, by decide, by decide⟩

/-- Claim C3, amended: after every preparation, total_rounds is at most
the number of unplayed tracks that preparation saw, and the prepared
track list never outgrows total_rounds, so each round-start transition,
guarded by the loop condition that current_round is below the track-list
length, leaves current_round at most total_rounds.  As a state invariant,
however, the bound of current_round by total_rounds fails: since
reset_for_new_game neither resets current_round nor cancels the round
task, a rematch preparation that sees fewer unplayed tracks leaves the
stale current_round above the new clamp, in the LOBBY and even in
ROUND_OVER once the abandoned round task finishes. -/
theorem round_index_invariant (host url : String) (dur : ℚ) (n : ℕ)
    (s : RoomState) (h : RoomReachable (initRoom host url dur n) s) :
    (s.prepared = true → s.total_rounds ≤ s.lastPrepUnplayed) ∧
    s.game_tracks.length ≤ s.total_rounds ∧
    (∀ now : ℚ, s.current_round < s.game_tracks.length →
      (roundStartFn s now).current_round ≤
        (roundStartFn s now).total_rounds) := by
  have hinv := roomInv_reachable host url dur n s h
  refine ⟨hinv.2, hinv.1, ?_⟩
  intro now hlt
  show s.current_round + 1 ≤ s.total_rounds
  exact le_trans hlt hinv.1

/-- Witness for the amended claim C3 at a concrete mid-game state. -/
theorem round_index_invariant_witness :
    (exS4.prepared = true → exS4.total_rounds ≤ exS4.lastPrepUnplayed) ∧
    exS4.game_tracks.length ≤ exS4.total_rounds ∧
    (∀ now : ℚ, exS4.current_round < exS4.game_tracks.length →
      (roundStartFn exS4 now).current_round ≤
        (roundStartFn exS4 now).total_rounds) := by
  have h1 : Step exInit exS1 := Step.connect exInit "h"
  have h2 : Step exS1 exS2 := Step.prepare exS1 [trackA, trackB, trackC]
    [trackA, trackB, trackC] (by decide) (by decide) (by decide)
  have h3 : Step exS2 exS3 := Step.startGame exS2 "h" (by decide)
  have h4 : Step exS3 exS4 := Step.roundStart exS3 1 (by decide) (by decide)
    (by decide)
  exact round_index_invariant "h" "u" 30 2 exS4
    ((((Relation.ReflTransGen.single h1).tail h2).tail h3).tail h4)

/-- Claim C6, violated by the code: from the reachable state exS5, where
round one of a running game sits in its ROUND_OVER reveal pause with one
live game_loop task, a host start_game message passes the guard, which
only checks for PLAYING, and launches a second game_loop task: the
resulting reachable state exBug has two live round-progression tasks, and
start_game during ROUND_OVER is not a no-op. -/
theorem second_round_task_reachable :
    RoomReachable exInit exS5 ∧ exS5.game_state = GState.ROUND_OVER ∧
    exS5.round_tasks = 1 ∧ RoomReachable exInit exBug ∧
    exBug.round_tasks = 2 ∧ exBug.game_state = GState.PLAYING := by
  have h1 : Step exInit exS1 := Step.connect exInit "h"
  have h2 : Step exS1 exS2 := Step.prepare exS1 [trackA, trackB, trackC]
    [trackA, trackB, trackC] (by decide) (by decide) (by decide)
  have h3 : Step exS2 exS3 := Step.startGame exS2 "h" (by decide)
  have h4 : Step exS3 exS4 := Step.roundStart exS3 1 (by decide) (by decide)
    (by decide)
  have h5 : Step exS4 exS5 := Step.endRoundScore exS4 (by decide)
  have hreach5 : RoomReachable exInit exS5 :=
    ((((Relation.ReflTransGen.single h1).tail h2).tail h3).tail h4).tail h5
  have hbug : Step exS5 exBug := Step.startGame exS5 "h" (by decide)
  exact ⟨hreach5, by decide, by decide, hreach5.tail hbug, by decide,
    by decide⟩

lemma findP_some_username (l : List PlayerM) (u : String) (p : PlayerM)
    (h : findP l u = some p) : p.username = u := by
  unfold findP at h
  have := List.find?_some h
  simpa using this

lemma findP_mem (l : List PlayerM) (u : String) (p : PlayerM)
    (h : findP l u = some p) : p ∈ l :=
  List.mem_of_find?_eq_some h

lemma mem_usernames_of_findP (l : List PlayerM) (u : String) (p : PlayerM)
    (h : findP l u = some p) : u ∈ usernames l := by
  unfold usernames
  rw [List.mem_map]
  exact ⟨p, findP_mem l u p h, findP_some_username l u p h⟩

lemma findP_eq_none_of_not_mem (l : List PlayerM) (u : String)
    (h : u ∉ usernames l) : findP l u = none := by
  unfold findP
  rw [List.find?_eq_none]
  intro p hp hbeq
  apply h
  unfold usernames
  rw [List.mem_map]
  exact ⟨p, hp, by simpa using hbeq⟩

lemma not_mem_usernames_removeP (l : List PlayerM) (u : String) :
    u ∉ usernames (removeP l u) := by
  intro hmem
  unfold usernames removeP at hmem
  rw [List.mem_map] at hmem
  obtain ⟨p, hp, hpu⟩ := hmem
  have := (List.mem_filter.mp hp).2
  rw [hpu] at this
  simp at this

lemma findP_append_right (l1 l2 : List PlayerM) (u : String)
    (h : findP l1 u = none) : findP (l1 ++ l2) u = findP l2 u := by
  unfold findP at h ⊢
  rw [List.find?_append, h]
  rfl

lemma disconnect_shape (s : RoomState) (u : String)
    (h : u ∈ usernames s.players) :
    (disconnectFn s u).players = removeP s.players u ∧
    (disconnectFn s u).host_name = s.host_name := by
  unfold disconnectFn
  rw [if_pos h]
  by_cases h2 : removeP s.players u = [] ∨ u = s.host_name
  · rw [if_pos h2]
    exact ⟨rfl, rfl⟩
  · rw [if_neg h2]
    exact ⟨rfl, rfl⟩

/-- Claim C7, counterexample: play the one-round game of the trace tr0 to
tr9, in which guest b scores fifty-five points and wins the game.  When b
disconnects, remove_player pops the session entirely, so room membership
is not preserved; when b reconnects under the same username, the endpoint
builds a brand-new Player, so the session returns with score zero and
wins zero instead of fifty-five and one. -/
theorem nonhost_reconnect_loses_score :
    RoomReachable tr0 tr11 ∧
    findP tr9.players "b" =
      some { username := "b", score := 55, wins := 1, has_answered := true,
             gave_up := false, guess_time := 0, connected := true } ∧
    "b" ∉ usernames tr10.players ∧
    findP tr11.players "b" =
      some { username := "b", score := 0, wins := 0, has_answered := false,
             gave_up := false, guess_time := 0, connected := true } := by
  refine ⟨?_, by with_unfolding_all decide, by with_unfolding_all decide,
    by with_unfolding_all decide⟩
  have s1 : Step tr0 tr1 := Step.connect tr0 "h"
  have s2 : Step tr1 tr2 := Step.connect tr1 "b"
  have s3 : Step tr2 tr3 := Step.prepare tr2 [trackA] [trackA]
    (by with_unfolding_all decide) (by with_unfolding_all decide)
    (by with_unfolding_all decide)
  have s4 : Step tr3 tr4 := Step.startGame tr3 "h"
    (by with_unfolding_all decide)
  have s5 : Step tr4 tr5 := Step.roundStart tr4 10
    (by with_unfolding_all decide) (by with_unfolding_all decide)
    (by with_unfolding_all decide)
  have s6 : Step tr5 tr6 := Step.guess tr5 "b" ("alpha".toList) 10
  have s7 : Step tr6 tr7 := Step.endRoundScore tr6
    (by with_unfolding_all decide)
  have s8 : Step tr7 tr8 := Step.endRoundResume tr7
    (by with_unfolding_all decide)
  have s9 : Step tr8 tr9 := Step.endGame tr8
    (by with_unfolding_all decide) (by with_unfolding_all decide)
  have s10 : Step tr9 tr10 := Step.disconnect tr9 "b"
  have s11 : Step tr10 tr11 := Step.connect tr10 "b"
  exact ((((((((((Relation.ReflTransGen.single s1).tail s2).tail s3).tail
    s4).tail s5).tail s6).tail s7).tail s8).tail s9).tail s10).tail s11

/-- Claim C7, amended: across a disconnect and reconnect only the host
session survives, because the endpoint always rebinds the host username to
the room.host object, whose score and wins persist; a non-host player is
removed from the room on disconnect and a reconnect under the same
username yields a brand-new session with zero score and wins; a second
concurrent connection under an already-online non-host username is
rejected with the room unchanged, while a connection under the host
username is always accepted, replacing the host socket. -/
theorem reconnect_and_duplicate_behavior (s : RoomState) :
    (∀ p, findP s.players s.host_name = some p →
      findP ((connectFn (disconnectFn s s.host_name) s.host_name).1.players)
          s.host_name = some { p with connected := true }) ∧
    (∀ u q, u ≠ s.host_name → findP s.players u = some q →
      (u ∉ usernames (disconnectFn s u).players) ∧
      (findP ((connectFn (disconnectFn s u) u).1.players) u =
        some { username := u, score := 0, wins := 0, has_answered := false,
               gave_up := false, guess_time := 0, connected := true }) ∧
      (q.connected = true → connectFn s u = (s, ConnOutcome.rejected))) ∧
    (connectFn s s.host_name).2 = ConnOutcome.accepted := by
  refine ⟨?_, ?_, ?_⟩
  · intro p hp
    have hpu : p.username = s.host_name := findP_some_username _ _ _ hp
    have hhin : s.host_name ∈ usernames s.players :=
      mem_usernames_of_findP _ _ _ hp
    unfold disconnectFn
    rw [if_pos hhin, if_pos (Or.inr rfl), hp]
    unfold connectFn
    rw [if_pos rfl,
      if_neg (not_mem_usernames_removeP s.players s.host_name)]
    rw [findP_append_right _ _ _ (findP_eq_none_of_not_mem _ _
      (not_mem_usernames_removeP s.players s.host_name))]
    simp [findP, hpu]
  · intro u q hne hq
    have hqu : q.username = u := findP_some_username _ _ _ hq
    have huin : u ∈ usernames s.players := mem_usernames_of_findP _ _ _ hq
    obtain ⟨hdp, hdh⟩ := disconnect_shape s u huin
    refine ⟨?_, ?_, ?_⟩
    · rw [hdp]
      exact not_mem_usernames_removeP s.players u
    · unfold connectFn
      rw [hdh, if_neg hne, hdp,
        findP_eq_none_of_not_mem _ _ (not_mem_usernames_removeP s.players u)]
      simp only []
      rw [findP_append_right _ _ _ (findP_eq_none_of_not_mem _ _
        (not_mem_usernames_removeP s.players u))]
      simp [findP]
    · intro hconn
      unfold connectFn
      rw [if_neg hne]
      simp only [hq]
      rw [if_pos hconn]
  · unfold connectFn
    rw [if_pos rfl]
    by_cases h2 : s.host_name ∈ usernames s.players
    · rw [if_pos h2]
    · rw [if_neg h2]

/-- Witness for the amended claim C7: the host of the finished game tr9
keeps score and wins across a disconnect and reconnect, and the duplicate
connection outcome for the host is acceptance. -/
theorem reconnect_and_duplicate_witness :
    findP tr9.players "h" =
      some { username := "h", score := 0, wins := 0, has_answered := false,
             gave_up := false, guess_time := 0, connected := true } ∧
    findP ((connectFn (disconnectFn tr9 "h") "h").1.players) "h" =
      some { username := "h", score := 0, wins := 0, has_answered := false,
             gave_up := false, guess_time := 0, connected := true } ∧
    (connectFn tr9 "h").2 = ConnOutcome.accepted := by
  have hfind : findP tr9.players "h" =
      some { username := "h", score := 0, wins := 0, has_answered := false,
             gave_up := false, guess_time := 0, connected := true } := by
    with_unfolding_all decide
  have h := reconnect_and_duplicate_behavior tr9
  exact ⟨hfind, h.1 _ hfind, h.2.2⟩

lemma getElem?_some_mem {l : List PlayerM} {i : ℕ} {p : PlayerM}
    (h : l[i]? = some p) : p ∈ l := by
  obtain ⟨hi, rfl⟩ := List.getElem?_eq_some.mp h
  exact List.getElem_mem hi

lemma insByTime_perm (x : PlayerM) (l : List PlayerM) :
    (insByTime x l).Perm (x :: l) := by
  induction l with
  | nil => exact List.Perm.refl _
  | cons y ys ih =>
    unfold insByTime
    by_cases hle : y.guess_time ≤ x.guess_time
    · rw [if_pos hle]
      exact (ih.cons y).trans (List.Perm.swap x y ys)
    · rw [if_neg hle]

lemma sortAux_perm (l : List PlayerM) :
    ∀ acc : List PlayerM,
      (l.foldl (fun acc x => insByTime x acc) acc).Perm (acc ++ l) := by
  induction l with
  | nil => intro acc; simp
  | cons x xs ih =>
    intro acc
    rw [List.foldl_cons]
    refine (ih (insByTime x acc)).trans ?_
    refine ((insByTime_perm x acc).append_right xs).trans ?_
    exact List.perm_middle.symm

lemma sortByTime_perm (l : List PlayerM) : (sortByTime l).Perm l := by
  unfold sortByTime
  simpa using sortAux_perm l []

lemma insByTime_pairwise (x : PlayerM) (l : List PlayerM)
    (h : l.Pairwise (fun a b => a.guess_time ≤ b.guess_time)) :
    (insByTime x l).Pairwise (fun a b => a.guess_time ≤ b.guess_time) := by
  induction l with
  | nil => simp [insByTime]
  | cons y ys ih =>
    rw [List.pairwise_cons] at h
    obtain ⟨hy, hys⟩ := h
    unfold insByTime
    by_cases hle : y.guess_time ≤ x.guess_time
    · rw [if_pos hle]
      rw [List.pairwise_cons]
      constructor
      · intro z hz
        rw [(insByTime_perm x ys).mem_iff] at hz
        rcases List.mem_cons.mp hz with rfl | hz
        · exact hle
        · exact hy z hz
      · exact ih hys
    · rw [if_neg hle]
      rw [List.pairwise_cons]
      constructor
      · intro z hz
        rcases List.mem_cons.mp hz with rfl | hz
        · exact (not_le.mp hle).le
        · exact le_trans (not_le.mp hle).le (hy z hz)
      · exact List.Pairwise.cons hy hys

lemma sortAux_pairwise (l : List PlayerM) :
    ∀ acc : List PlayerM,
      acc.Pairwise (fun a b => a.guess_time ≤ b.guess_time) →
      (l.foldl (fun acc x => insByTime x acc) acc).Pairwise
        (fun a b => a.guess_time ≤ b.guess_time) := by
  induction l with
  | nil => intro acc h; simpa using h
  | cons x xs ih =>
    intro acc h
    rw [List.foldl_cons]
    exact ih (insByTime x acc) (insByTime_pairwise x acc h)

lemma sortByTime_pairwise (l : List PlayerM) :
    (sortByTime l).Pairwise (fun a b => a.guess_time ≤ b.guess_time) :=
  sortAux_pairwise l [] (by simp)

lemma find?_award_enumFrom (F : ℕ → PlayerM → ℤ) (l : List PlayerM) :
    ∀ (n j : ℕ) (p : PlayerM), (usernames l).Nodup → l[j]? = some p →
      List.find? (fun pr => pr.1 == p.username)
        ((l.enumFrom n).map (fun ip => (ip.2.username, F ip.1 ip.2))) =
        some (p.username, F (n + j) p) := by
  induction l with
  | nil =>
    intro n j p _ hj
    simp at hj
  | cons q qs ih =>
    intro n j p hnd hj
    rw [List.enumFrom_cons, List.map_cons, List.find?_cons]
    cases j with
    | zero =>
      rw [List.getElem?_cons_zero] at hj
      obtain rfl : q = p := Option.some_injective _ hj
      simp
    | succ j =>
      rw [List.getElem?_cons_succ] at hj
      rw [show usernames (q :: qs) = q.username :: usernames qs from rfl,
        List.nodup_cons] at hnd
      have hqp : (q.username == p.username) = false := by
        have hpm : p.username ∈ usernames qs :=
          List.mem_map_of_mem PlayerM.username (getElem?_some_mem hj)
        have hne : q.username ≠ p.username := by
          intro he
          exact hnd.1 (he ▸ hpm)
        simpa using hne
      rw [hqp]
      rw [ih (n + 1) j p hnd.2 hj]
      have harith : n + 1 + j = n + (j + 1) := by omega
      rw [harith]

lemma lookupZ_roundAwards (dur : ℚ) (answered : List PlayerM) (total : ℕ)
    (j : ℕ) (p : PlayerM) (hnd : (usernames answered).Nodup)
    (hj : answered[j]? = some p) :
    lookupZ (roundAwards dur answered total) p.username =
      awardCode dur answered total j p := by
  unfold lookupZ roundAwards
  rw [show answered.enum = answered.enumFrom 0 from rfl]
  rw [find?_award_enumFrom (awardCode dur answered total) answered 0 j p hnd
    hj]
  simp

lemma if_lt_clamp {α : Type} [LinearOrder α] (a x : α) :
    (if x < a then a else x) = max a x := by
  rcases lt_or_le x a with h | h
  · rw [if_pos h, max_eq_left h.le]
  · rw [if_neg (not_lt.mpr h), max_eq_right h]

lemma awardCode_eq_specAward (dur : ℚ) (answered : List PlayerM)
    (total : ℕ) (j : ℕ) (p : PlayerM) :
    awardCode dur answered total j p =
      specAward dur (j + 1) answered.length p.guess_time
        (((answered[1]?).map PlayerM.guess_time).getD 0) total := by
  unfold awardCode specAward
  have h1 : pontosCode dur p.guess_time = specPoints dur p.guess_time := by
    unfold pontosCode specPoints
    exact if_lt_clamp 10 _
  have h2 : bonusPrimeiroCode p.guess_time
      (((answered[1]?).map PlayerM.guess_time).getD 0) =
      specFirstBonus p.guess_time
        (((answered[1]?).map PlayerM.guess_time).getD 0) := by
    unfold bonusPrimeiroCode specFirstBonus
    exact if_lt_clamp 0 _
  have h3 : bonusUnicoCode total = specSoloBonus total := rfl
  have hcond : (j = 0 ∧ 1 < answered.length) ↔
      (j + 1 = 1 ∧ 2 ≤ answered.length) := by omega
  rw [h1, h2, h3, if_congr hcond rfl rfl]

/-- Claim C1: the scoring pass of end_round awards exactly what the
specification formula prescribes.  The answerers, sorted stably by
ascending guess time (the sorted list is a permutation of the answerers
and is pairwise ordered by guess time), each gain
round(points + first_bonus + solo_bonus) at their one-based rank, with
points = max(10, 50(1 - elapsed/duration * 1/2)), a first bonus
max(0, round(10(1 - gap/5))) only for rank one when at least two
answered, and a solo bonus 5(total_players - 1) when exactly one
answered, which is 15 for four players; players without has_answered, in
particular those who gave up, are untouched, and a second call of
end_round in the same ROUND_OVER phase is a no-op, so the scoring runs
once per round. -/
theorem end_round_scoring_matches_spec (dur : ℚ) (players : List PlayerM)
    (hnodup : (usernames players).Nodup) :
    (sortByTime (players.filter (fun q => q.has_answered))).Perm
        (players.filter (fun q => q.has_answered)) ∧
    (sortByTime (players.filter (fun q => q.has_answered))).Pairwise
        (fun a b => a.guess_time ≤ b.guess_time) ∧
    (∀ (i : ℕ) (p : PlayerM), players[i]? = some p →
      p.has_answered = false → (scoreRound dur players)[i]? = some p) ∧
    (∀ (i : ℕ) (p : PlayerM) (j : ℕ), players[i]? = some p →
      p.has_answered = true →
      (sortByTime (players.filter (fun q => q.has_answered)))[j]? = some p →
      (scoreRound dur players)[i]? = some
        { p with score := (p.score + specAward dur (j + 1)
            (sortByTime (players.filter (fun q => q.has_answered))).length
            p.guess_time
            ((((sortByTime (players.filter (fun q => q.has_answered)))[1]?).map
              PlayerM.guess_time).getD 0)
            players.length) }) ∧
    specSoloBonus 4 = 15 ∧ bonusUnicoCode 4 = 15 ∧
    (∀ s2 : RoomState, s2.game_state = GState.ROUND_OVER →
      endRoundScoreFn s2 = s2) := by
  have hperm := sortByTime_perm (players.filter (fun q => q.has_answered))
  refine ⟨hperm, sortByTime_pairwise _, ?_, ?_, by decide, by decide, ?_⟩
  · intro i p hip hans
    unfold scoreRound
    rw [List.getElem?_map, hip]
    simp only [Option.map_some']
    rw [if_neg (by rw [hans]; exact Bool.false_ne_true)]
  · intro i p j hip hans hj
    have hndans :
        (usernames (sortByTime (players.filter (fun q => q.has_answered)))).Nodup := by
      have hsub : List.Sublist
          (usernames (players.filter (fun q => q.has_answered)))
          (usernames players) :=
        (List.filter_sublist players).map PlayerM.username
      have hmap := hperm.map PlayerM.username
      exact hmap.nodup_iff.mpr (hnodup.sublist hsub)
    unfold scoreRound
    rw [List.getElem?_map, hip]
    simp only [Option.map_some']
    rw [if_pos hans]
    rw [lookupZ_roundAwards dur _ players.length j p hndans hj]
    rw [awardCode_eq_specAward dur _ players.length j p]
  · intro s2 h2
    unfold endRoundScoreFn
    rw [if_pos h2]

/-- Witness for claim C1 at a concrete three-player round with two
answerers, and for the once-per-round guard at the concrete ROUND_OVER
state exS5. -/
theorem end_round_scoring_witness :
    (usernames [cPH, cPB, cPC]).Nodup ∧
    (scoreRound 30 [cPH, cPB, cPC])[2]? = some cPC ∧
    endRoundScoreFn exS5 = exS5 := by
  have h := end_round_scoring_matches_spec 30 [cPH, cPB, cPC]
    (by with_unfolding_all decide)
  refine ⟨by with_unfolding_all decide, ?_, ?_⟩
  · exact h.2.2.1 2 cPC (by with_unfolding_all decide)
      (by with_unfolding_all decide)
  · exact h.2.2.2.2.2.2 exS5 (by decide)

end GuessSong
